import Mathlib

/-!
Shallow embedding of the conditional field-elision and defaulting engine
implemented in `src/run.py` (and its variant `src/py_tester.py`):
pydantic-style record construction (validation, defaults, required fields),
the `Skip` annotation, the post-construction pass of
`AdvancedBaseModel.__init__` (default substitution for unset Skip fields,
followed by deletion of non-required fields whose final value is `None`),
attribute access, hashing, and serialization to a map.
-/

namespace Pyd

/-- Canonical runtime values: `None`, strings, integers, lists, plain dicts
(produced by serialization) and record instances (a constructed model tagged
with its type name, carrying its surviving field mapping). -/
inductive Value where
  | vnone
  | vstr (s : String)
  | vint (n : Int)
  | vlist (vs : List Value)
  | vdict (m : List (String × Value))
  | vrecord (typeName : String) (m : List (String × Value))

/-- Python's `value is None` test, used by the deletion check in
`AdvancedBaseModel.__init__`. -/
def Value.isNone : Value → Bool
  | .vnone => true
  | _ => false

/-- Declared field types, mirroring the annotations used in the source:
`str`, `int`, enums (with `use_enum_values`, values normalize to the raw
string), `Optional[t]`, `List[t]`, binary `Union` (pydantic v1 tries members
left to right), and nested-model references by type name. -/
inductive FieldType where
  | tstr
  | tint
  | tenum (allowed : List String)
  | toption (t : FieldType)
  | tlist (t : FieldType)
  | tunion (a b : FieldType)
  | tmodel (typeName : String)
deriving DecidableEq

/-- Validate every element of a list with the element validator `g`,
failing if any element fails (pydantic collection validation). -/
def validateElems (g : Value → Except String Value) : List Value → Except String (List Value)
  | [] => .ok []
  | v :: vs =>
    match g v with
    | .error e => .error e
    | .ok w =>
      match validateElems g vs with
      | .error e => .error e
      | .ok ws => .ok (w :: ws)

/-- The external validator (pydantic's per-field validation/coercion as
configured in the source: `use_enum_values = True`, int-to-str coercion,
`None` admitted only through `Optional`). -/
def validateType : FieldType → Value → Except String Value
  | .tstr => fun v =>
    match v with
    | .vstr s => .ok (.vstr s)
    | .vint n => .ok (.vstr (toString n))
    | _ => .error "ValidationError: str expected"
  | .tint => fun v =>
    match v with
    | .vint n => .ok (.vint n)
    | _ => .error "ValidationError: int expected"
  | .tenum allowed => fun v =>
    match v with
    | .vstr s => if s ∈ allowed then .ok (.vstr s) else .error "ValidationError: not a valid enum value"
    | _ => .error "ValidationError: not a valid enum value"
  | .toption t => fun v =>
    match v with
    | .vnone => .ok .vnone
    | w => validateType t w
  | .tlist t => fun v =>
    match v with
    | .vlist vs => (validateElems (validateType t) vs).map .vlist
    | _ => .error "ValidationError: list expected"
  | .tunion a b => fun v =>
    match validateType a v with
    | .ok w => .ok w
    | .error _ => validateType b v
  | .tmodel nm => fun v =>
    match v with
    | .vrecord nm' m => if nm' = nm then .ok (.vrecord nm' m) else .error "ValidationError: wrong model type"
    | _ => .error "ValidationError: model instance expected"

/-- The `Skip` annotation wrapper of `src/run.py`:
`def Skip(_type, default=None): return _type` — at runtime it returns the
wrapped type unchanged; the default is only recovered later from the class
source by `AdvancedBaseModel.__init__`. -/
def Skip (t : FieldType) (_d : Option Value) : FieldType := t

/-- How a `Skip` default was declared in the annotation:
not at all, as the second positional argument (`Skip(T, lit)`), or as the
keyword argument (`Skip(T, default=lit)`).  `AdvancedBaseModel.__init__`
checks the keyword first, then the positional form. -/
inductive SkipDefault where
  | noDefault
  | positional (v : Value)
  | keyword (v : Value)

/-- The default literal recovered from the annotation (keyword branch first,
then the two-positional-arguments branch), if any. -/
def SkipDefault.toOption : SkipDefault → Option Value
  | .noDefault => none
  | .positional v => some v
  | .keyword v => some v

/-- A declared field of a model class: its name, annotated type (after the
`Skip` wrapper has been applied, since `Skip` is the identity on types), the
pydantic class-level default (`b: Optional[str] = "string"`), whether the
field is marked for elision (`Skip(...)` annotation in `run.py`, `# skip`
comment in `py_tester.py`), and the default declared inside `Skip(...)`. -/
structure Field where
  name : String
  ftype : FieldType
  pyDefault : Option Value
  skip : Bool
  skipDefault : SkipDefault

/-- Whether a declared type is `Optional[...]` (admits `None`). -/
def FieldType.isOptional : FieldType → Bool
  | .toption _ => true
  | _ => false

/-- Pydantic v1's `required` flag, read by the deletion check
(`self.__fields__[field_name].required`): a field is required exactly when
its type is not `Optional` and it has no class-level default. -/
def Field.required (f : Field) : Bool :=
  !f.ftype.isOptional && f.pyDefault.isNone

/-- Raw keyword arguments of a construction call. -/
abbrev Args := List (String × Value)

/-- Look a name up in an association list (first match). -/
def getField (m : List (String × Value)) (n : String) : Option Value :=
  (m.find? (fun p => p.1 == n)).map (fun p => p.2)

/-- Per-field result of the base pydantic `__init__`: the validated value
together with whether the field was explicitly supplied by the caller
(membership in `__fields_set__`). -/
structure ResolvedField where
  name : String
  value : Value
  explicitlySet : Bool

/-- Base pydantic resolution of a single field: an explicitly supplied value
is validated and marked as set; otherwise the class-level default is used
(validated, since `validate_all = True`); otherwise a missing required field
aborts construction and a non-required field resolves to `None`. -/
def baseResolveField (f : Field) (args : Args) : Except String ResolvedField :=
  match getField args f.name with
  | some v => (validateType f.ftype v).map (fun w => ⟨f.name, w, true⟩)
  | none =>
    match f.pyDefault with
    | some d => (validateType f.ftype d).map (fun w => ⟨f.name, w, false⟩)
    | none =>
      if f.required then .error ("MissingFieldError: " ++ f.name)
      else .ok ⟨f.name, .vnone, false⟩

/-- Base pydantic `__init__` (`super().__init__(*args, **kwargs)`): resolve
every declared field in declaration order; any failure aborts the whole
construction (extra arguments are ignored, per `extra = "ignore"`). -/
def baseResolve : List Field → Args → Except String (List ResolvedField)
  | [], _ => .ok []
  | f :: fs, args =>
    match baseResolveField f args with
    | .error e => .error e
    | .ok r =>
      match baseResolve fs args with
      | .error e => .error e
      | .ok rs => .ok (r :: rs)

/-- The value a field holds after the default-substitution step of
`AdvancedBaseModel.__init__`: for a `Skip` field that is not in
`__fields_set__` and declares a default, the default literal is assigned via
`__setattr__`, which re-validates it (`validate_assignment = True`);
otherwise the base value is kept. -/
def resolveFinal (f : Field) (r : ResolvedField) : Except String Value :=
  if f.skip && !r.explicitlySet then
    match f.skipDefault.toOption with
    | some d => validateType f.ftype d
    | none => .ok r.value
  else .ok r.value

/-- The deletion check of `AdvancedBaseModel.__init__`: a field is removed
from the instance exactly when it is `Skip`-marked, not required, and its
final value is `None`. -/
def omitField (f : Field) (v : Value) : Bool :=
  f.skip && !f.required && v.isNone

/-- The `AdvancedBaseModel.__init__` post-pass over the resolved fields, in
declaration order: substitute `Skip` defaults where applicable, then drop
each field whose deletion check fires; surviving fields keep their order. -/
def advancedPass : List Field → List ResolvedField → Except String (List (String × Value))
  | [], _ => .ok []
  | _ :: _, [] => .ok []
  | f :: fs, r :: rs =>
    match resolveFinal f r with
    | .error e => .error e
    | .ok v =>
      match advancedPass fs rs with
      | .error e => .error e
      | .ok tail => .ok (if omitField f v then tail else (f.name, v) :: tail)

/-- Full construction of an `AdvancedBaseModel` subclass: base pydantic
resolution followed by the skip pass.  The result is the instance's
surviving field mapping (`self.__dict__` after `__init__` returns). -/
def construct (schema : List Field) (args : Args) : Except String (List (String × Value)) :=
  match baseResolve schema args with
  | .error e => .error e
  | .ok base => advancedPass schema base

/-- Construction of a plain `BaseModel` subclass (no skip pass): the
instance keeps every declared field with its base-resolved value. -/
def constructBase (schema : List Field) (args : Args) : Except String (List (String × Value)) :=
  (baseResolve schema args).map (fun rs => rs.map (fun r => (r.name, r.value)))

/-- Per-field fusion of `construct`: each field is resolved, substituted and
elided independently of the others, so the two passes of `construct` can be
interleaved field by field.  `construct_ok_iff` below proves the fusion
faithful on all successful runs. -/
def constructFields : List Field → Args → Except String (List (String × Value))
  | [], _ => .ok []
  | f :: fs, args =>
    match baseResolveField f args with
    | .error e => .error e
    | .ok r =>
      match resolveFinal f r with
      | .error e => .error e
      | .ok v =>
        match constructFields fs args with
        | .error e => .error e
        | .ok tail => .ok (if omitField f v then tail else (f.name, v) :: tail)

/-- A constructed model instance: its class identity and its surviving field
mapping (`self.__dict__` after construction, in declaration order). -/
structure RecordInstance where
  typeName : String
  fields : List (String × Value)

/-- Construct an `AdvancedBaseModel` subclass named `tn` into a record
instance; a validation failure anywhere yields an error and no instance. -/
def constructModel (tn : String) (schema : List Field) (args : Args) : Except String RecordInstance :=
  (construct schema args).map (fun out => ⟨tn, out⟩)

/-- Attribute access on an instance: reading a field that elision removed
from `self.__dict__` raises (`AttributeNotPresentError`); reading a
surviving field returns its final value. -/
def RecordInstance.getAttr (r : RecordInstance) (n : String) : Except String Value :=
  match getField r.fields n with
  | some v => .ok v
  | none => .error "AttributeNotPresentError"

/-- The hash key of `BaseModel.__hash__`, which hashes
`repr((type(self),) + tuple(self.__dict__.values()))`: the class identity
together with the surviving field values in declaration order.  Python's
`repr`/`hash` composition on this tuple is external to the repository and is
modelled as the injective extraction of that key. -/
def modelHash (r : RecordInstance) : String × List Value :=
  (r.typeName, r.fields.map (fun p => p.2))

mutual

/-- Pydantic's `.dict()` rendering of a single value: nested model instances
become plain dicts (recursively), collections are walked element-wise, and
scalars are left as-is.  No field is added or removed. -/
def serializeValue : Value → Value
  | .vnone => .vnone
  | .vstr s => .vstr s
  | .vint n => .vint n
  | .vlist vs => .vlist (serializeList vs)
  | .vdict m => .vdict (serializeFields m)
  | .vrecord _ m => .vdict (serializeFields m)

/-- Serialize the elements of a list, in order. -/
def serializeList : List Value → List Value
  | [] => []
  | v :: vs => serializeValue v :: serializeList vs

/-- Serialize the values of a field mapping, keeping keys and order. -/
def serializeFields : List (String × Value) → List (String × Value)
  | [] => []
  | p :: m => (p.1, serializeValue p.2) :: serializeFields m

end

/-- `instance.dict()`: the surviving field mapping, serialized. -/
def RecordInstance.toMap (r : RecordInstance) : List (String × Value) :=
  serializeFields r.fields

/-! Concrete schemas mirroring the test fixtures of `src/run.py`, with the
fields of interest named individually. -/

/-- `c: Skip(Optional[str], default="string2")` of `test_assignment_skip`. -/
def skipCField : Field :=
  ⟨"c", Skip (.toption .tstr) (some (.vstr "string2")), none, true, .keyword (.vstr "string2")⟩

/-- The `Test` model of `test_assignment_skip`: `a: str`,
`b: Optional[str] = "string"`, `c: Skip(Optional[str], default="string2")`,
`d: Skip(Optional[str], "string3")`, `e: Skip(Optional[str])`. -/
def assignmentSchema : List Field :=
  [ ⟨"a", .tstr, none, false, .noDefault⟩,
    ⟨"b", .toption .tstr, some (.vstr "string"), false, .noDefault⟩,
    skipCField,
    ⟨"d", Skip (.toption .tstr) (some (.vstr "string3")), none, true, .positional (.vstr "string3")⟩,
    ⟨"e", Skip (.toption .tstr) none, none, true, .noDefault⟩ ]

/-- `c: Skip(Optional[List[str]], [1,2,3])` of `test_default_skip`. -/
def skipListField : Field :=
  ⟨"c", Skip (.toption (.tlist .tstr)) (some (.vlist [.vint 1, .vint 2, .vint 3])), none, true,
    .positional (.vlist [.vint 1, .vint 2, .vint 3])⟩

/-- `d: Skip(Union[str, int, None], default=1)` of `test_default_skip`. -/
def skipUnionField : Field :=
  ⟨"d", Skip (.toption (.tunion .tstr .tint)) (some (.vint 1)), none, true, .keyword (.vint 1)⟩

/-- The `DefaultModel` of `test_default_skip`: `a: Skip(Optional[str])`,
`b: Skip(Optional[str], None)`, `c: Skip(Optional[List[str]], [1,2,3])`,
`d: Skip(Union[str, int, None], default=1)`. -/
def defaultSchema : List Field :=
  [ ⟨"a", Skip (.toption .tstr) none, none, true, .noDefault⟩,
    ⟨"b", Skip (.toption .tstr) (some .vnone), none, true, .positional .vnone⟩,
    skipListField,
    skipUnionField ]

/-- The `Inner` model of `test_both_skip` (an `AdvancedBaseModel`):
`e: int`, `f: Optional[int]`, `g: Skip(Optional[List[str]])`. -/
def innerSchema : List Field :=
  [ ⟨"e", .tint, none, false, .noDefault⟩,
    ⟨"f", .toption .tint, none, false, .noDefault⟩,
    ⟨"g", Skip (.toption (.tlist .tstr)) none, none, true, .noDefault⟩ ]

/-- `d: Inner` of `test_both_skip`: a plain nested-model field. -/
def innerRefField : Field := ⟨"d", .tmodel "Inner", none, false, .noDefault⟩

/-- The `Outer` model of `test_both_skip`:
`a: str`, `b: Optional[str]`, `c: Skip(Optional[TestEnum])`, `d: Inner`. -/
def outerSchema : List Field :=
  [ ⟨"a", .tstr, none, false, .noDefault⟩,
    ⟨"b", .toption .tstr, none, false, .noDefault⟩,
    ⟨"c", Skip (.toption (.tenum ["1", "2"])) none, none, true, .noDefault⟩,
    innerRefField ]

/-- The surviving field mapping of `Inner(e=1, f=2)`. -/
def innerDict : List (String × Value) := [("e", .vint 1), ("f", .vint 2)]

/-- The constructed `Inner(e=1, f=2)` instance used by the nesting tests. -/
def innerInstance : Except String RecordInstance :=
  constructModel "Inner" innerSchema [("e", .vint 1), ("f", .vint 2)]

/-- `b: Skip(Optional[List[Union[str, None]]])` of `test_union_skip`. -/
def unionListField : Field :=
  ⟨"b", Skip (.toption (.tlist (.toption .tstr))) none, none, true, .noDefault⟩

/-- The `UnionTest` model of `test_union_skip`:
`a: Skip(Union[str, int, None])`, `b: Skip(Optional[List[Union[str, None]]])`. -/
def unionSchema : List Field :=
  [ ⟨"a", Skip (.toption (.tunion .tstr .tint)) none, none, true, .noDefault⟩,
    unionListField ]

/-- The `OM` model of `test_nested_optional_skip`:
`a: Skip(Optional[Optional[str]])`, `b: Skip(Optional[List[Optional[str]]])`,
`c: Skip(Optional[List[Optional[List[str]]]])`. -/
def omSchema : List Field :=
  [ ⟨"a", Skip (.toption (.toption .tstr)) none, none, true, .noDefault⟩,
    ⟨"b", Skip (.toption (.tlist (.toption .tstr))) none, none, true, .noDefault⟩,
    ⟨"c", Skip (.toption (.tlist (.toption (.tlist .tstr)))) none, none, true, .noDefault⟩ ]

/-- Equality of model instances.  The repository's `BaseModel` overrides only
`__hash__` (`src/run.py:19-25`), so `==` is pydantic v1's inherited
`BaseModel.__eq__`: the two instances' `.dict()` serializations are compared,
with no class check. -/
def pyEq (r₁ r₂ : RecordInstance) : Prop :=
  r₁.toMap = r₂.toMap

/-! Sanity checks: the embedding reproduces the expected `.dict()` outputs
asserted by the tests in `src/run.py`. -/

example : construct assignmentSchema [("a", .vint 1)] =
    .ok [("a", .vstr "1"), ("b", .vstr "string"),
         ("c", .vstr "string2"), ("d", .vstr "string3")] := rfl

example : construct assignmentSchema [("a", .vint 1), ("b", .vnone), ("c", .vnone)] =
    .ok [("a", .vstr "1"), ("b", .vnone), ("d", .vstr "string3")] := rfl

example : construct defaultSchema [] =
    .ok [("c", .vlist [.vstr "1", .vstr "2", .vstr "3"]), ("d", .vstr "1")] := rfl

example : construct defaultSchema [("a", .vint 1), ("c", .vlist []), ("d", .vnone)] =
    .ok [("a", .vstr "1"), ("c", .vlist [])] := rfl

example : construct defaultSchema [("b", .vstr ""), ("c", .vnone), ("d", .vstr "letter_d")] =
    .ok [("b", .vstr ""), ("d", .vstr "letter_d")] := rfl

example : ∃ e, construct defaultSchema [("c", .vlist [.vnone, .vint 1, .vint 2])] = .error e :=
  ⟨_, rfl⟩

example : innerInstance = .ok ⟨"Inner", innerDict⟩ := rfl

example : constructModel "Outer" outerSchema
      [("a", .vint 1), ("d", .vrecord "Inner" innerDict)] =
    .ok ⟨"Outer", [("a", .vstr "1"), ("b", .vnone), ("d", .vrecord "Inner" innerDict)]⟩ := rfl

example : constructBase outerSchema [("a", .vint 1), ("d", .vrecord "Inner" innerDict)] =
    .ok [("a", .vstr "1"), ("b", .vnone), ("c", .vnone), ("d", .vrecord "Inner" innerDict)] := rfl

example : (RecordInstance.toMap
      ⟨"Outer", [("a", .vstr "1"), ("b", .vnone), ("d", .vrecord "Inner" innerDict)]⟩) =
    [("a", .vstr "1"), ("b", .vnone), ("d", .vdict innerDict)] := rfl

example : construct unionSchema [] = .ok [] := rfl

example : construct unionSchema [("a", .vint 1), ("b", .vlist [.vnone, .vstr "123", .vnone])] =
    .ok [("a", .vstr "1"), ("b", .vlist [.vnone, .vstr "123", .vnone])] := rfl

example : construct unionSchema [("b", .vlist [])] = .ok [("b", .vlist [])] := rfl

example : construct omSchema [] = .ok [] := rfl

example : construct omSchema
      [("a", .vint 1), ("b", .vlist [.vnone, .vstr "123", .vnone]),
       ("c", .vlist [.vlist [], .vnone])] =
    .ok [("a", .vstr "1"), ("b", .vlist [.vnone, .vstr "123", .vnone]),
         ("c", .vlist [.vlist [], .vnone])] := rfl

/-! Basic lemmas about the embedding. -/

theorem okBind {α β : Type} (a : α) (k : α → Except String β) :
    (Except.ok a >>= k) = k a := rfl

theorem errBind {α β : Type} (e : String) (k : α → Except String β) :
    ((Except.error e : Except String α) >>= k) = .error e := rfl

theorem okMap {α β : Type} (a : α) (g : α → β) :
    (Except.ok a : Except String α).map g = .ok (g a) := rfl

theorem errMap {α β : Type} (e : String) (g : α → β) :
    (Except.error e : Except String α).map g = .error e := rfl

theorem isNone_iff {v : Value} : v.isNone = true ↔ v = .vnone := by
  cases v <;> simp [Value.isNone]

theorem getField_cons_self (n : String) (v : Value) (m : List (String × Value)) :
    getField ((n, v) :: m) n = some v := by
  simp [getField, List.find?]

theorem getField_cons_ne {n n' : String} (h : n' ≠ n) (v : Value) (m : List (String × Value)) :
    getField ((n', v) :: m) n = getField m n := by
  have hb : (n' == n) = false := by simpa using h
  simp [getField, List.find?, hb]

theorem getField_eq_none {m : List (String × Value)} {n : String}
    (h : ∀ p ∈ m, p.1 ≠ n) : getField m n = none := by
  have : m.find? (fun p => p.1 == n) = none := by
    rw [List.find?_eq_none]
    intro p hp
    simpa using h p hp
  simp [getField, this]

/-- Validation never turns `None` into anything else. -/
theorem validateType_vnone_ok {t : FieldType} {w : Value}
    (h : validateType t .vnone = .ok w) : w = .vnone := by
  induction t with
  | tstr => simp [validateType] at h
  | tint => simp [validateType] at h
  | tenum allowed => simp [validateType] at h
  | toption t ih => simp [validateType] at h; exact h.symm
  | tlist t ih => simp [validateType] at h
  | tunion a b iha ihb =>
    simp only [validateType] at h
    cases ha : validateType a .vnone with
    | ok w' =>
      rw [ha] at h
      cases h
      exact iha ha
    | error e =>
      rw [ha] at h
      exact ihb h
  | tmodel nm => simp [validateType] at h

/-- Validation only yields `None` on input `None`. -/
theorem validateType_ok_vnone {t : FieldType} {v : Value}
    (h : validateType t v = .ok .vnone) : v = .vnone := by
  induction t generalizing v with
  | tstr => cases v <;> simp [validateType] at h
  | tint => cases v <;> simp [validateType] at h
  | tenum allowed =>
    cases v <;> simp [validateType] at h
    split at h <;> simp at h
  | toption t ih =>
    cases v with
    | vnone => rfl
    | vstr s => exact ih h
    | vint n => exact ih h
    | vlist vs => exact ih h
    | vdict m => exact ih h
    | vrecord nm m => exact ih h
  | tlist t ih =>
    cases v <;> simp [validateType] at h
    cases hes : validateElems (validateType t) _ <;> rw [hes] at h <;> simp [okMap, errMap] at h
  | tunion a b iha ihb =>
    simp only [validateType] at h
    cases ha : validateType a v with
    | ok w =>
      rw [ha] at h
      cases h
      exact iha ha
    | error e =>
      rw [ha] at h
      exact ihb h
  | tmodel nm =>
    cases v <;> simp [validateType] at h
    split at h <;> simp at h

/-- A nested model value of the declared model type passes validation
unchanged. -/
theorem validateType_tmodel (nm : String) (m : List (String × Value)) :
    validateType (.tmodel nm) (.vrecord nm m) = .ok (.vrecord nm m) := by
  simp [validateType]

/-- Element validation preserves the length of a list. -/
theorem validateElems_ok_length {g : Value → Except String Value} {vs ws : List Value}
    (h : validateElems g vs = .ok ws) : ws.length = vs.length := by
  induction vs generalizing ws with
  | nil =>
    simp [validateElems] at h
    simp [← h]
  | cons v vs ih =>
    simp only [validateElems] at h
    cases hv : g v with
    | error e => rw [hv] at h; simp [errBind] at h
    | ok w =>
      rw [hv] at h
      cases hvs : validateElems g vs with
      | error e => rw [hvs] at h; simp [okBind, errBind] at h
      | ok ws' =>
        rw [hvs] at h
        simp [okBind] at h
        subst h
        simp [ih hvs]

/-- Element validation acts element-wise, in order. -/
theorem validateElems_ok_get {g : Value → Except String Value} {vs ws : List Value}
    (h : validateElems g vs = .ok ws) (i : Nat) (hi : i < vs.length) (hi' : i < ws.length) :
    g (vs.get ⟨i, hi⟩) = .ok (ws.get ⟨i, hi'⟩) := by
  induction vs generalizing ws i with
  | nil => simp at hi
  | cons v vs ih =>
    simp only [validateElems] at h
    cases hv : g v with
    | error e => rw [hv] at h; simp [errBind] at h
    | ok w =>
      rw [hv] at h
      cases hvs : validateElems g vs with
      | error e => rw [hvs] at h; simp [okBind, errBind] at h
      | ok ws' =>
        rw [hvs] at h
        simp [okBind] at h
        subst h
        cases i with
        | zero => simpa using hv
        | succ j =>
          have hj : j < vs.length := by simpa using hi
          have hj' : j < ws'.length := by simpa using hi'
          simpa using ih hvs j hj hj'

/-- The staged construction (full base pass, then full skip pass) succeeds
with a given output exactly when the per-field fusion does: the two passes
never interact across distinct fields. -/
theorem construct_ok_iff {schema : List Field} {args : Args} {out : List (String × Value)} :
    construct schema args = .ok out ↔ constructFields schema args = .ok out := by
  induction schema generalizing out with
  | nil => simp [construct, constructFields, baseResolve, advancedPass]
  | cons f fs ih =>
    constructor
    · intro h
      simp only [construct, baseResolve] at h
      cases hr : baseResolveField f args with
      | error e => rw [hr] at h; simp at h
      | ok r =>
        rw [hr] at h
        cases hrs : baseResolve fs args with
        | error e => rw [hrs] at h; simp at h
        | ok rs =>
          rw [hrs] at h
          simp only [advancedPass] at h
          cases hv : resolveFinal f r with
          | error e => rw [hv] at h; simp at h
          | ok v =>
            rw [hv] at h
            cases ht : advancedPass fs rs with
            | error e => rw [ht] at h; simp at h
            | ok tail =>
              rw [ht] at h
              have hfs : constructFields fs args = .ok tail := by
                apply ih.mp
                simp [construct, hrs, ht]
              simp only [constructFields, hr, hv, hfs]
              simpa using h
    · intro h
      simp only [constructFields] at h
      cases hr : baseResolveField f args with
      | error e => rw [hr] at h; simp at h
      | ok r =>
        rw [hr] at h
        simp only [] at h
        cases hv : resolveFinal f r with
        | error e => rw [hv] at h; simp at h
        | ok v =>
          rw [hv] at h
          simp only [] at h
          cases ht : constructFields fs args with
          | error e => rw [ht] at h; simp at h
          | ok tail =>
            rw [ht] at h
            simp only [] at h
            have hc : construct fs args = .ok tail := ih.mpr ht
            simp only [construct, baseResolve] at hc ⊢
            cases hrs : baseResolve fs args with
            | error e => rw [hrs] at hc; simp at hc
            | ok rs =>
              rw [hrs] at hc
              simp only [] at hc
              simp only []
              rw [hr]
              simp only []
              simp only [advancedPass]
              rw [hv]
              simp only []
              rw [hc]
              simp only []
              exact h

/-- Every key of a constructed output is a declared field name. -/
theorem constructFields_keys {schema : List Field} {args : Args} {out : List (String × Value)}
    (h : constructFields schema args = .ok out) :
    ∀ p ∈ out, p.1 ∈ schema.map Field.name := by
  induction schema generalizing out with
  | nil =>
    intro p hp
    simp [constructFields] at h
    subst h
    simp at hp
  | cons f fs ih =>
    intro p hp
    simp only [constructFields] at h
    cases hr : baseResolveField f args with
    | error e => rw [hr] at h; simp at h
    | ok r =>
      rw [hr] at h
      simp only [] at h
      cases hv : resolveFinal f r with
      | error e => rw [hv] at h; simp at h
      | ok v =>
        rw [hv] at h
        simp only [] at h
        cases ht : constructFields fs args with
        | error e => rw [ht] at h; simp at h
        | ok tail =>
          rw [ht] at h
          simp at h
          cases homit : omitField f v with
          | true =>
            rw [homit] at h
            simp at h
            subst h
            exact List.mem_cons_of_mem _ (ih ht p hp)
          | false =>
            rw [homit] at h
            simp at h
            subst h
            rcases List.mem_cons.mp hp with hph | hpt
            · subst hph
              simp
            · exact List.mem_cons_of_mem _ (ih ht p hpt)

/-- Per-field characterization of a successful fused construction: for every
declared field there is a base resolution and a final value, and the field's
presence in (and value within) the output map is decided exactly by the
deletion check on that final value. -/
theorem getField_constructFields {f : Field} {schema : List Field} {args : Args}
    {out : List (String × Value)}
    (hnd : (schema.map Field.name).Nodup)
    (hc : constructFields schema args = .ok out) (hf : f ∈ schema) :
    ∃ r v, baseResolveField f args = .ok r ∧ resolveFinal f r = .ok v ∧
      getField out f.name = (if omitField f v then none else some v) := by
  induction schema generalizing out with
  | nil => simp at hf
  | cons f₀ fs ih =>
    simp only [constructFields] at hc
    cases hr : baseResolveField f₀ args with
    | error e => rw [hr] at hc; simp at hc
    | ok r₀ =>
      rw [hr] at hc
      simp only [] at hc
      cases hv : resolveFinal f₀ r₀ with
      | error e => rw [hv] at hc; simp at hc
      | ok v₀ =>
        rw [hv] at hc
        simp only [] at hc
        cases ht : constructFields fs args with
        | error e => rw [ht] at hc; simp at hc
        | ok tail =>
          rw [ht] at hc
          simp at hc
          have hnd' := hnd
          simp only [List.map_cons, List.nodup_cons] at hnd'
          have hnd₀ : f₀.name ∉ fs.map Field.name := hnd'.1
          have hndfs : (fs.map Field.name).Nodup := hnd'.2
          rcases List.mem_cons.mp hf with hf₀ | hffs
          · subst hf₀
            refine ⟨r₀, v₀, hr, hv, ?_⟩
            cases homit : omitField f v₀ with
            | true =>
              rw [homit] at hc
              simp at hc
              subst hc
              have hnone : ∀ p ∈ tail, p.1 ≠ f.name := by
                intro p hp hpn
                exact hnd₀ (hpn ▸ constructFields_keys ht p hp)
              simp [getField_eq_none hnone]
            | false =>
              rw [homit] at hc
              simp at hc
              subst hc
              simp [getField_cons_self]
          · have hfn : f.name ∈ fs.map Field.name := List.mem_map_of_mem _ hffs
            have hne : f₀.name ≠ f.name := fun hEq => hnd₀ (hEq ▸ hfn)
            obtain ⟨r, v, h1, h2, h3⟩ := ih hndfs ht hffs
            refine ⟨r, v, h1, h2, ?_⟩
            cases homit : omitField f₀ v₀ with
            | true =>
              rw [homit] at hc
              simp at hc
              subst hc
              exact h3
            | false =>
              rw [homit] at hc
              simp at hc
              subst hc
              rw [getField_cons_ne hne]
              exact h3

/-- The same characterization for the staged `construct`. -/
theorem getField_construct {f : Field} {schema : List Field} {args : Args}
    {out : List (String × Value)}
    (hnd : (schema.map Field.name).Nodup)
    (hc : construct schema args = .ok out) (hf : f ∈ schema) :
    ∃ r v, baseResolveField f args = .ok r ∧ resolveFinal f r = .ok v ∧
      getField out f.name = (if omitField f v then none else some v) :=
  getField_constructFields hnd (construct_ok_iff.mp hc) hf

/-- Base resolution of a field keeps the field's name. -/
theorem baseResolveField_name {f : Field} {args : Args} {r : ResolvedField}
    (h : baseResolveField f args = .ok r) : r.name = f.name := by
  unfold baseResolveField at h
  cases ha : getField args f.name with
  | some v =>
    rw [ha] at h
    simp only [] at h
    cases hw : validateType f.ftype v with
    | ok w =>
      rw [hw] at h
      simp [okMap] at h
      simp [← h]
    | error e => rw [hw] at h; simp [errMap] at h
  | none =>
    rw [ha] at h
    simp only [] at h
    cases hd : f.pyDefault with
    | some d =>
      rw [hd] at h
      simp only [] at h
      cases hw : validateType f.ftype d with
      | ok w =>
        rw [hw] at h
        simp [okMap] at h
        simp [← h]
      | error e => rw [hw] at h; simp [errMap] at h
    | none =>
      rw [hd] at h
      simp only [] at h
      split at h
      · simp at h
      · simp at h
        simp [← h]

/-- Inversion of base resolution for an explicitly supplied field: its value
is the validated input and it is marked as explicitly set. -/
theorem baseResolveField_supplied {f : Field} {args : Args} {v : Value} {r : ResolvedField}
    (ha : getField args f.name = some v) (h : baseResolveField f args = .ok r) :
    ∃ w, validateType f.ftype v = .ok w ∧ r = ⟨f.name, w, true⟩ := by
  unfold baseResolveField at h
  rw [ha] at h
  simp only [] at h
  cases hw : validateType f.ftype v with
  | ok w =>
    rw [hw] at h
    simp [okMap] at h
    exact ⟨w, rfl, h.symm⟩
  | error e => rw [hw] at h; simp [errMap] at h

/-- Inversion of base resolution for a field the caller did not supply:
it is never marked explicitly set, a class-level default is validated and
substituted, and with no default a non-required field resolves to `None`. -/
theorem baseResolveField_unsupplied {f : Field} {args : Args} {r : ResolvedField}
    (ha : getField args f.name = none) (h : baseResolveField f args = .ok r) :
    r.explicitlySet = false ∧
    (f.pyDefault = none → r = ⟨f.name, .vnone, false⟩) ∧
    (∀ d, f.pyDefault = some d → ∃ w, validateType f.ftype d = .ok w ∧ r = ⟨f.name, w, false⟩) := by
  unfold baseResolveField at h
  rw [ha] at h
  simp only [] at h
  cases hd : f.pyDefault with
  | some d =>
    rw [hd] at h
    simp only [] at h
    cases hw : validateType f.ftype d with
    | ok w =>
      rw [hw] at h
      simp [okMap] at h
      refine ⟨by simp [← h], by simp, ?_⟩
      intro d' hd'
      cases hd'
      exact ⟨w, hw, h.symm⟩
    | error e => rw [hw] at h; simp [errMap] at h
  | none =>
    rw [hd] at h
    simp only [] at h
    split at h
    · simp at h
    · simp at h
      exact ⟨by simp [← h], fun _ => h.symm, by simp⟩

/-- An explicitly set field never receives a `Skip` default. -/
theorem resolveFinal_set {f : Field} {r : ResolvedField} (h : r.explicitlySet = true) :
    resolveFinal f r = .ok r.value := by
  simp [resolveFinal, h]

/-- An unset `Skip` field with a declared default resolves to the validated
default. -/
theorem resolveFinal_unset_default {f : Field} {r : ResolvedField} {d : Value}
    (hset : r.explicitlySet = false) (hskip : f.skip = true)
    (hd : f.skipDefault.toOption = some d) :
    resolveFinal f r = validateType f.ftype d := by
  simp [resolveFinal, hset, hskip, hd]

/-- With no `Skip` default to substitute, the base value is kept. -/
theorem resolveFinal_unset_noDefault {f : Field} {r : ResolvedField}
    (hset : r.explicitlySet = false) (hd : f.skipDefault.toOption = none) :
    resolveFinal f r = .ok r.value := by
  cases hskip : f.skip <;> simp [resolveFinal, hset, hskip, hd]

/-- The deletion check, spelled out: a field is omitted exactly when it is
`Skip`-marked, not required, and its final value is `None`. -/
theorem omitField_true_iff {f : Field} {v : Value} :
    omitField f v = true ↔ (f.skip = true ∧ f.required = false ∧ v = .vnone) := by
  simp [omitField, Bool.and_eq_true, Bool.not_eq_true', isNone_iff, and_assoc]

/-- A validation failure at any supplied field makes base resolution of the
whole schema fail. -/
theorem baseResolve_error_of_mem {schema : List Field} {args : Args} {f : Field} {e : String}
    (hf : f ∈ schema) (h : baseResolveField f args = .error e) :
    ∃ e', baseResolve schema args = .error e' := by
  induction schema with
  | nil => simp at hf
  | cons f₀ fs ih =>
    rcases List.mem_cons.mp hf with hf₀ | hffs
    · subst hf₀
      exact ⟨e, by simp [baseResolve, h]⟩
    · cases hr : baseResolveField f₀ args with
      | error e₀ => exact ⟨e₀, by simp [baseResolve, hr]⟩
      | ok r₀ =>
        obtain ⟨e', he'⟩ := ih hffs
        exact ⟨e', by simp [baseResolve, hr, he']⟩

/-- A failed base pass fails the whole construction. -/
theorem construct_error_of_base {schema : List Field} {args : Args} {e : String}
    (h : baseResolve schema args = .error e) : construct schema args = .error e := by
  simp [construct, h]

/-- A supplied value that fails validation fails the field's base
resolution with that validation error. -/
theorem baseResolveField_error {f : Field} {args : Args} {v : Value} {e : String}
    (ha : getField args f.name = some v) (hv : validateType f.ftype v = .error e) :
    baseResolveField f args = .error e := by
  unfold baseResolveField
  rw [ha]
  simp only []
  rw [hv]
  rfl

/-- Base resolution returns one resolved field per declared field, with the
same names in the same order. -/
theorem baseResolve_names {schema : List Field} {args : Args} {rs : List ResolvedField}
    (h : baseResolve schema args = .ok rs) :
    rs.map ResolvedField.name = schema.map Field.name := by
  induction schema generalizing rs with
  | nil =>
    simp [baseResolve] at h
    simp [← h]
  | cons f fs ih =>
    simp only [baseResolve] at h
    cases hr : baseResolveField f args with
    | error e => rw [hr] at h; simp at h
    | ok r =>
      rw [hr] at h
      simp only [] at h
      cases hrest : baseResolve fs args with
      | error e => rw [hrest] at h; simp at h
      | ok rest =>
        rw [hrest] at h
        simp at h
        subst h
        simp [baseResolveField_name hr, ih hrest]

/-- Per-field characterization of a plain (non-elision-aware) construction:
every declared field is present in the output with its base-resolved value. -/
theorem getField_constructBase {f : Field} {schema : List Field} {args : Args}
    {out : List (String × Value)}
    (hnd : (schema.map Field.name).Nodup)
    (hc : constructBase schema args = .ok out) (hf : f ∈ schema) :
    ∃ r, baseResolveField f args = .ok r ∧ getField out f.name = some r.value := by
  induction schema generalizing out with
  | nil => simp at hf
  | cons f₀ fs ih =>
    simp only [constructBase, baseResolve] at hc
    cases hr : baseResolveField f₀ args with
    | error e => rw [hr] at hc; simp [errMap] at hc
    | ok r₀ =>
      rw [hr] at hc
      simp only [] at hc
      cases hrs : baseResolve fs args with
      | error e => rw [hrs] at hc; simp [errMap] at hc
      | ok rs =>
        rw [hrs] at hc
        simp [okMap] at hc
        subst hc
        have hnd' := hnd
        simp only [List.map_cons, List.nodup_cons] at hnd'
        rcases List.mem_cons.mp hf with hf₀ | hffs
        · subst hf₀
          refine ⟨r₀, hr, ?_⟩
          rw [baseResolveField_name hr]
          exact getField_cons_self _ _ _
        · have hfn : f.name ∈ fs.map Field.name := List.mem_map_of_mem _ hffs
          have hne : r₀.name ≠ f.name := by
            rw [baseResolveField_name hr]
            exact fun hEq => hnd'.1 (hEq ▸ hfn)
          have hbase : constructBase fs args = .ok (rs.map (fun r => (r.name, r.value))) := by
            unfold constructBase
            rw [hrs]
            rfl
          obtain ⟨r, h1, h2⟩ := ih hnd'.2 hbase hffs
          exact ⟨r, h1, by rw [getField_cons_ne hne]; exact h2⟩

/-! The claims. -/

/-- C1: for every field of a constructed record, the field is absent from the
record's output map if and only if it is marked elidable (`Skip`-annotated),
is not required, and its final post-resolution value is null; in particular
an elidable field whose final value is non-null always survives into the
output map with that value. -/
theorem c1_elision_iff (schema : List Field) (args : Args) (out : List (String × Value))
    (f : Field)
    (hnd : (schema.map Field.name).Nodup)
    (hc : construct schema args = .ok out) (hf : f ∈ schema) :
    ∃ r v, baseResolveField f args = .ok r ∧ resolveFinal f r = .ok v ∧
      (getField out f.name = none ↔ (f.skip = true ∧ f.required = false ∧ v = .vnone)) ∧
      (v ≠ .vnone → getField out f.name = some v) := by
  obtain ⟨r, v, h1, h2, h3⟩ := getField_construct hnd hc hf
  have hiff : getField out f.name = none ↔ (f.skip = true ∧ f.required = false ∧ v = .vnone) := by
    rw [h3]
    cases homit : omitField f v with
    | true =>
      obtain ⟨ha, hb, hcv⟩ := omitField_true_iff.mp homit
      simp [ha, hb, hcv]
    | false =>
      simp only [Bool.false_eq_true, if_false]
      constructor
      · intro hsome
        cases hsome
      · intro hcond
        have := omitField_true_iff.mpr hcond
        rw [homit] at this
        cases this
  refine ⟨r, v, h1, h2, hiff, ?_⟩
  intro hv
  rw [h3]
  cases homit : omitField f v with
  | true => exact absurd (omitField_true_iff.mp homit).2.2 hv
  | false => simp

/-- C1 witness: in `Test(a=1, b=None, c=None)` of `test_assignment_skip`, the
elidable optional field `c` resolves to an explicit null and is omitted. -/
theorem c1_elision_iff_witness :
    ∃ r v, baseResolveField skipCField [("a", .vint 1), ("b", .vnone), ("c", .vnone)] = .ok r ∧
      resolveFinal skipCField r = .ok v ∧
      (getField [("a", .vstr "1"), ("b", .vnone), ("d", .vstr "string3")] skipCField.name = none ↔
        (skipCField.skip = true ∧ skipCField.required = false ∧ v = .vnone)) ∧
      (v ≠ .vnone →
        getField [("a", .vstr "1"), ("b", .vnone), ("d", .vstr "string3")] skipCField.name = some v) :=
  c1_elision_iff assignmentSchema [("a", .vint 1), ("b", .vnone), ("c", .vnone)]
    [("a", .vstr "1"), ("b", .vnone), ("d", .vstr "string3")] skipCField (by decide) rfl
    (List.mem_cons_of_mem _ (List.mem_cons_of_mem _ (List.mem_cons_self _ _)))

/-- C2: for an elidable optional field with a declared default, constructing
with an explicit null never substitutes the default: the field base-resolves
to an explicitly-set null (EXPLICIT state), its final value is null, and the
output omits the field instead of containing the default. -/
theorem c2_explicit_null_overrides_default (schema : List Field) (args : Args)
    (out : List (String × Value)) (f : Field) (d : Value)
    (hnd : (schema.map Field.name).Nodup)
    (hf : f ∈ schema) (hskip : f.skip = true) (hreq : f.required = false)
    (hd : f.skipDefault.toOption = some d)
    (ha : getField args f.name = some .vnone)
    (hc : construct schema args = .ok out) :
    baseResolveField f args = .ok ⟨f.name, .vnone, true⟩ ∧
    resolveFinal f ⟨f.name, .vnone, true⟩ = .ok .vnone ∧
    getField out f.name = none := by
  obtain ⟨r, v, h1, h2, h3⟩ := getField_construct hnd hc hf
  obtain ⟨w, hw, hr⟩ := baseResolveField_supplied ha h1
  have hwn : w = .vnone := validateType_vnone_ok hw
  subst hwn
  subst hr
  have hv : v = .vnone := by
    rw [resolveFinal_set rfl] at h2
    simpa using h2.symm
  subst hv
  refine ⟨h1, resolveFinal_set rfl, ?_⟩
  rw [h3]
  simp [omitField, hskip, hreq, Value.isNone]

/-- C2 witness: in `DefaultModel(a=1, c=[], d=None)` of `test_default_skip`,
the explicit null for `d` (declared default `1`) yields omission, not the
default. -/
theorem c2_explicit_null_overrides_default_witness :
    baseResolveField skipUnionField [("a", .vint 1), ("c", .vlist []), ("d", .vnone)] =
      .ok ⟨skipUnionField.name, .vnone, true⟩ ∧
    resolveFinal skipUnionField ⟨skipUnionField.name, .vnone, true⟩ = .ok .vnone ∧
    getField [("a", .vstr "1"), ("c", .vlist [])] skipUnionField.name = none :=
  c2_explicit_null_overrides_default defaultSchema
    [("a", .vint 1), ("c", .vlist []), ("d", .vnone)]
    [("a", .vstr "1"), ("c", .vlist [])] skipUnionField (.vint 1) (by decide)
    (List.mem_cons_of_mem _ (List.mem_cons_of_mem _ (List.mem_cons_of_mem _ (List.mem_cons_self _ _))))
    rfl rfl rfl rfl rfl

/-- C3: for an elidable optional field the caller did not supply, a declared
default (recovered alike from the positional or the `default` keyword form)
is validated and substituted; the field then appears in the output exactly
when the validated default is non-null.  With no declared default of any
kind, the field is omitted entirely. -/
theorem c3_unset_default_or_omission (schema : List Field) (args : Args)
    (out : List (String × Value)) (f : Field)
    (hnd : (schema.map Field.name).Nodup)
    (hf : f ∈ schema) (hskip : f.skip = true) (hreq : f.required = false)
    (ha : getField args f.name = none)
    (hc : construct schema args = .ok out) :
    (∀ d, f.skipDefault.toOption = some d →
      ∃ w, validateType f.ftype d = .ok w ∧
        getField out f.name = (if w.isNone then none else some w)) ∧
    (f.skipDefault.toOption = none → f.pyDefault = none → getField out f.name = none) ∧
    (∀ dv : Value,
      (SkipDefault.positional dv).toOption = some dv ∧ (SkipDefault.keyword dv).toOption = some dv) := by
  obtain ⟨r, v, h1, h2, h3⟩ := getField_construct hnd hc hf
  obtain ⟨hset, hnone, hsome⟩ := baseResolveField_unsupplied ha h1
  refine ⟨?_, ?_, fun dv => ⟨rfl, rfl⟩⟩
  · intro d hd
    rw [resolveFinal_unset_default hset hskip hd] at h2
    refine ⟨v, h2, ?_⟩
    have homit : omitField f v = v.isNone := by simp [omitField, hskip, hreq]
    rw [h3, homit]
  · intro hd hpy
    have hr := hnone hpy
    subst hr
    rw [resolveFinal_unset_noDefault hset hd] at h2
    have hv : v = .vnone := by simpa using h2.symm
    subst hv
    rw [h3]
    simp [omitField, hskip, hreq, Value.isNone]

/-- C3 witness: in `DefaultModel()` of `test_default_skip`, the unsupplied
field `c` receives its positional default `[1,2,3]`, validated to
`['1','2','3']`, and survives into the output. -/
theorem c3_unset_default_or_omission_witness :
    (∀ d, skipListField.skipDefault.toOption = some d →
      ∃ w, validateType skipListField.ftype d = .ok w ∧
        getField [("c", .vlist [.vstr "1", .vstr "2", .vstr "3"]), ("d", .vstr "1")]
          skipListField.name = (if w.isNone then none else some w)) ∧
    (skipListField.skipDefault.toOption = none → skipListField.pyDefault = none →
      getField [("c", .vlist [.vstr "1", .vstr "2", .vstr "3"]), ("d", .vstr "1")]
        skipListField.name = none) ∧
    (∀ dv : Value,
      (SkipDefault.positional dv).toOption = some dv ∧ (SkipDefault.keyword dv).toOption = some dv) :=
  c3_unset_default_or_omission defaultSchema []
    [("c", .vlist [.vstr "1", .vstr "2", .vstr "3"]), ("d", .vstr "1")] skipListField (by decide)
    (List.mem_cons_of_mem _ (List.mem_cons_of_mem _ (List.mem_cons_self _ _)))
    rfl rfl rfl rfl

/-- C4: a nested record value produced by its own construction is embedded
unchanged — with its own elision decisions already applied — whether the
parent is elision-aware (`construct`) or plain (`constructBase`); the parent
never re-runs elision inside it, and it serializes to the same child map in
both parents. -/
theorem c4_nested_elision_independent (childSchema : List Field) (childArgs : Args)
    (m : List (String × Value)) (cn : String)
    (parentSchema : List Field) (parentArgs : Args)
    (out₁ out₂ : List (String × Value)) (f : Field)
    (hnd : (parentSchema.map Field.name).Nodup)
    (hf : f ∈ parentSchema) (ht : f.ftype = .tmodel cn)
    (hm : construct childSchema childArgs = .ok m)
    (ha : getField parentArgs f.name = some (.vrecord cn m))
    (h₁ : construct parentSchema parentArgs = .ok out₁)
    (h₂ : constructBase parentSchema parentArgs = .ok out₂) :
    getField out₁ f.name = some (.vrecord cn m) ∧
    getField out₂ f.name = some (.vrecord cn m) ∧
    serializeValue (.vrecord cn m) = .vdict (serializeFields m) := by
  have hval : validateType f.ftype (.vrecord cn m) = .ok (.vrecord cn m) := by
    rw [ht]
    exact validateType_tmodel cn m
  refine ⟨?_, ?_, rfl⟩
  · obtain ⟨r, v, h1, h2, h3⟩ := getField_construct hnd h₁ hf
    obtain ⟨w, hw, hr⟩ := baseResolveField_supplied ha h1
    rw [hval] at hw
    have hww : w = .vrecord cn m := by simpa using hw.symm
    subst hww
    subst hr
    rw [resolveFinal_set rfl] at h2
    have hv : v = .vrecord cn m := by simpa using h2.symm
    subst hv
    rw [h3]
    simp [omitField, Value.isNone]
  · obtain ⟨r, h1, h2⟩ := getField_constructBase hnd h₂ hf
    obtain ⟨w, hw, hr⟩ := baseResolveField_supplied ha h1
    rw [hval] at hw
    have hww : w = .vrecord cn m := by simpa using hw.symm
    subst hww
    subst hr
    exact h2

/-- C4 witness: `Inner(e=1, f=2)` embedded at field `d` keeps the same
surviving map under the elision-aware `Outer` and the plain `Outer`. -/
theorem c4_nested_elision_independent_witness :
    getField [("a", .vstr "1"), ("b", .vnone), ("d", .vrecord "Inner" innerDict)]
      innerRefField.name = some (.vrecord "Inner" innerDict) ∧
    getField [("a", .vstr "1"), ("b", .vnone), ("c", .vnone), ("d", .vrecord "Inner" innerDict)]
      innerRefField.name = some (.vrecord "Inner" innerDict) ∧
    serializeValue (.vrecord "Inner" innerDict) = .vdict (serializeFields innerDict) :=
  c4_nested_elision_independent innerSchema [("e", .vint 1), ("f", .vint 2)] innerDict "Inner"
    outerSchema [("a", .vint 1), ("d", .vrecord "Inner" innerDict)]
    [("a", .vstr "1"), ("b", .vnone), ("d", .vrecord "Inner" innerDict)]
    [("a", .vstr "1"), ("b", .vnone), ("c", .vnone), ("d", .vrecord "Inner" innerDict)]
    innerRefField (by decide)
    (List.mem_cons_of_mem _ (List.mem_cons_of_mem _ (List.mem_cons_of_mem _ (List.mem_cons_self _ _))))
    rfl rfl rfl rfl rfl

/-- C5: elision never removes elements of a collection-valued field: a list
supplied for an optional list field appears in the output with exactly as
many elements, element-wise validated in order, and every null element is
retained as null. -/
theorem c5_collection_elements_never_elided (schema : List Field) (args : Args)
    (out : List (String × Value)) (f : Field) (t : FieldType) (vs : List Value)
    (hnd : (schema.map Field.name).Nodup)
    (hf : f ∈ schema) (ht : f.ftype = .toption (.tlist t))
    (ha : getField args f.name = some (.vlist vs))
    (hc : construct schema args = .ok out) :
    ∃ ws, getField out f.name = some (.vlist ws) ∧
      validateElems (validateType t) vs = .ok ws ∧
      ws.length = vs.length ∧
      (∀ i (h₁ : i < vs.length) (h₂ : i < ws.length),
        vs.get ⟨i, h₁⟩ = .vnone → ws.get ⟨i, h₂⟩ = .vnone) := by
  obtain ⟨r, v, h1, h2, h3⟩ := getField_construct hnd hc hf
  obtain ⟨w, hw, hr⟩ := baseResolveField_supplied ha h1
  rw [ht] at hw
  have hw' : (validateElems (validateType t) vs).map Value.vlist = .ok w := by
    simpa [validateType] using hw
  cases hes : validateElems (validateType t) vs with
  | error e => rw [hes] at hw'; simp [errMap] at hw'
  | ok ws =>
    rw [hes] at hw'
    simp [okMap] at hw'
    subst hw'
    subst hr
    rw [resolveFinal_set rfl] at h2
    have hv : v = .vlist ws := by simpa using h2.symm
    subst hv
    refine ⟨ws, ?_, rfl, validateElems_ok_length hes, ?_⟩
    · rw [h3]
      simp [omitField, Value.isNone]
    · intro i hi hi' hvn
      have hg := validateElems_ok_get hes i hi hi'
      rw [hvn] at hg
      exact validateType_vnone_ok hg

/-- C5 witness: in `UnionTest(a=1, b=[None, "123", None])` of
`test_union_skip`, the two null elements of `b` are retained verbatim. -/
theorem c5_collection_elements_never_elided_witness :
    ∃ ws, getField [("a", .vstr "1"), ("b", .vlist [.vnone, .vstr "123", .vnone])]
        unionListField.name = some (.vlist ws) ∧
      validateElems (validateType (.toption .tstr)) [.vnone, .vstr "123", .vnone] = .ok ws ∧
      ws.length = [Value.vnone, Value.vstr "123", Value.vnone].length ∧
      (∀ i (h₁ : i < [Value.vnone, Value.vstr "123", Value.vnone].length) (h₂ : i < ws.length),
        [Value.vnone, Value.vstr "123", Value.vnone].get ⟨i, h₁⟩ = .vnone →
          ws.get ⟨i, h₂⟩ = .vnone) :=
  c5_collection_elements_never_elided unionSchema
    [("a", .vint 1), ("b", .vlist [.vnone, .vstr "123", .vnone])]
    [("a", .vstr "1"), ("b", .vlist [.vnone, .vstr "123", .vnone])]
    unionListField (.toption .tstr) [.vnone, .vstr "123", .vnone] (by decide)
    (List.mem_cons_of_mem _ (List.mem_cons_self _ _))
    rfl rfl rfl

/-- C6: if any supplied field's raw input fails validation, the whole
construction fails and no record instance is produced — construction is
atomic and elision never runs on a partially-built instance. -/
theorem c6_validation_failure_atomic (schema : List Field) (args : Args)
    (f : Field) (v : Value) (e : String)
    (hf : f ∈ schema) (ha : getField args f.name = some v)
    (hv : validateType f.ftype v = .error e) :
    ∃ e', construct schema args = .error e' ∧
      ∀ tn : String, constructModel tn schema args = .error e' := by
  obtain ⟨e', he'⟩ := baseResolve_error_of_mem hf (baseResolveField_error ha hv)
  refine ⟨e', construct_error_of_base he', fun tn => ?_⟩
  simp [constructModel, construct_error_of_base he', errMap]

/-- C6 witness: `DefaultModel(c=[None, 1, 2])` of `test_default_skip` — a
null element inside a non-optional list element type — aborts construction
with a validation error and yields no instance. -/
theorem c6_validation_failure_atomic_witness :
    ∃ e', construct defaultSchema [("c", .vlist [.vnone, .vint 1, .vint 2])] = .error e' ∧
      ∀ tn : String,
        constructModel tn defaultSchema [("c", .vlist [.vnone, .vint 1, .vint 2])] = .error e' :=
  c6_validation_failure_atomic defaultSchema [("c", .vlist [.vnone, .vint 1, .vint 2])]
    skipListField (.vlist [.vnone, .vint 1, .vint 2]) "ValidationError: str expected"
    (List.mem_cons_of_mem _ (List.mem_cons_of_mem _ (List.mem_cons_self _ _)))
    rfl rfl

/-- C7: attribute access on a constructed instance fails with
`AttributeNotPresentError` exactly on the fields elision omitted, and
returns the final value of every surviving field; presence in the
instance's mapping is exactly the survival decision. -/
theorem c7_attribute_access (tn : String) (schema : List Field) (args : Args)
    (out : List (String × Value)) (f : Field)
    (hnd : (schema.map Field.name).Nodup)
    (hc : construct schema args = .ok out) (hf : f ∈ schema) :
    ∃ r v, baseResolveField f args = .ok r ∧ resolveFinal f r = .ok v ∧
      (RecordInstance.mk tn out).getAttr f.name =
        (if omitField f v then .error "AttributeNotPresentError" else .ok v) ∧
      (∀ n w, getField out n = some w → (RecordInstance.mk tn out).getAttr n = .ok w) ∧
      (∀ n, getField out n = none →
        (RecordInstance.mk tn out).getAttr n = .error "AttributeNotPresentError") := by
  obtain ⟨r, v, h1, h2, h3⟩ := getField_construct hnd hc hf
  refine ⟨r, v, h1, h2, ?_, ?_, ?_⟩
  · cases homit : omitField f v with
    | true =>
      rw [homit] at h3
      simp at h3
      simp [RecordInstance.getAttr, h3]
    | false =>
      rw [homit] at h3
      simp at h3
      simp [RecordInstance.getAttr, h3]
  · intro n w hw
    simp [RecordInstance.getAttr, hw]
  · intro n hn
    simp [RecordInstance.getAttr, hn]

/-- C7 witness: on `Test(a=1, b=None, c=None)` of `test_assignment_skip`,
reading the omitted field `c` fails with `AttributeNotPresentError` while
the surviving fields read back their final values. -/
theorem c7_attribute_access_witness :
    ∃ r v, baseResolveField skipCField [("a", .vint 1), ("b", .vnone), ("c", .vnone)] = .ok r ∧
      resolveFinal skipCField r = .ok v ∧
      (RecordInstance.mk "Test" [("a", .vstr "1"), ("b", .vnone), ("d", .vstr "string3")]).getAttr
          skipCField.name =
        (if omitField skipCField v then .error "AttributeNotPresentError" else .ok v) ∧
      (∀ n w, getField [("a", .vstr "1"), ("b", .vnone), ("d", .vstr "string3")] n = some w →
        (RecordInstance.mk "Test" [("a", .vstr "1"), ("b", .vnone), ("d", .vstr "string3")]).getAttr
          n = .ok w) ∧
      (∀ n, getField [("a", .vstr "1"), ("b", .vnone), ("d", .vstr "string3")] n = none →
        (RecordInstance.mk "Test" [("a", .vstr "1"), ("b", .vnone), ("d", .vstr "string3")]).getAttr
          n = .error "AttributeNotPresentError") :=
  c7_attribute_access "Test" assignmentSchema [("a", .vint 1), ("b", .vnone), ("c", .vnone)]
    [("a", .vstr "1"), ("b", .vnone), ("d", .vstr "string3")] skipCField (by decide) rfl
    (List.mem_cons_of_mem _ (List.mem_cons_of_mem _ (List.mem_cons_self _ _)))

/-- C8 counterexample: the claim's "two instances of different record types
never compare equal" fails.  `UnionTest()` and `OM()` construct instances of
different classes, each with zero surviving fields, and under the inherited
pydantic v1 `__eq__` (`.dict()` comparison, no class check) they compare
equal. -/
theorem c8_hash_type_identity_counterexample :
    constructModel "UnionTest" unionSchema [] = .ok ⟨"UnionTest", []⟩ ∧
    constructModel "OM" omSchema [] = .ok ⟨"OM", []⟩ ∧
    ("UnionTest" : String) ≠ "OM" ∧
    pyEq ⟨"UnionTest", []⟩ ⟨"OM", []⟩ :=
  ⟨rfl, rfl, by decide, rfl⟩

/-- C8 (amended): the hash of an instance is derived from its class identity
paired with its surviving field values in declaration order; instances of
different record types never hash equal, whatever their field values, and an
instance with zero surviving fields is legal and hashes on its type identity
alone.  Equality, however, is pydantic's inherited `.dict()` comparison with
no class check, so instances of different types with the same surviving
field mapping do compare equal. -/
theorem c8_hash_type_identity_amended (r₁ r₂ : RecordInstance)
    (h : r₁.typeName ≠ r₂.typeName) :
    modelHash r₁ = (r₁.typeName, r₁.fields.map (fun p => p.2)) ∧
    modelHash r₁ ≠ modelHash r₂ ∧
    (r₁.fields = [] → modelHash r₁ = (r₁.typeName, [])) ∧
    (r₁.fields = r₂.fields → pyEq r₁ r₂) := by
  refine ⟨rfl, ?_, ?_, ?_⟩
  · intro hEq
    exact h (congrArg Prod.fst hEq)
  · intro hfields
    simp [modelHash, hfields]
  · intro hfields
    unfold pyEq RecordInstance.toMap
    rw [hfields]

/-- C8 witness: two zero-surviving-field instances of different model
classes hash unequal, yet compare equal. -/
theorem c8_hash_type_identity_amended_witness :
    modelHash (RecordInstance.mk "UnionTest" []) ≠ modelHash ⟨"OM", []⟩ ∧
    modelHash ⟨"UnionTest", []⟩ = ("UnionTest", []) ∧
    pyEq ⟨"UnionTest", []⟩ ⟨"OM", []⟩ :=
  ⟨(c8_hash_type_identity_amended ⟨"UnionTest", []⟩ ⟨"OM", []⟩ (by decide)).2.1,
   (c8_hash_type_identity_amended ⟨"UnionTest", []⟩ ⟨"OM", []⟩ (by decide)).2.2.1 rfl,
   (c8_hash_type_identity_amended ⟨"UnionTest", []⟩ ⟨"OM", []⟩ (by decide)).2.2.2 rfl⟩

/-- Serialization keeps every key, in order: it neither adds nor drops
fields. -/
theorem serializeFields_keys (m : List (String × Value)) :
    (serializeFields m).map Prod.fst = m.map Prod.fst := by
  induction m with
  | nil => rfl
  | cons p m ih => simp [serializeFields, ih]

/-- C9: serializing a record instance to a map twice yields identical maps —
elision happened once at construction, and serialization is a pure function
of the instance that keeps exactly the surviving keys in their stored
order. -/
theorem c9_serialize_idempotent (r : RecordInstance) :
    r.toMap = r.toMap ∧ r.toMap.map Prod.fst = r.fields.map Prod.fst :=
  ⟨rfl, serializeFields_keys r.fields⟩

/-- C10: the `Skip` annotation wrapper returns its first argument unchanged
at runtime, so base-model validation, optionality and requiredness of a
`Skip`-wrapped field are exactly those of the unwrapped type, and the
declared default plays no part in base resolution (it is read only by the
post-construction pass). -/
theorem c10_skip_identity (t : FieldType) (d : Option Value) (v : Value)
    (f : Field) (b : Bool) (s : SkipDefault) (args : Args) :
    Skip t d = t ∧
    validateType (Skip t d) v = validateType t v ∧
    (Skip t d).isOptional = t.isOptional ∧
    (Field.mk f.name (Skip f.ftype d) f.pyDefault b s).required = f.required ∧
    baseResolveField (Field.mk f.name (Skip f.ftype d) f.pyDefault b s) args =
      baseResolveField f args := by
  cases f with
  | mk n ft pd sk sd => exact ⟨rfl, rfl, rfl, rfl, rfl⟩

end Pyd
